import Mathlib

/-!
Verification of the part-of-speech tagging state machine of
`elit/component/pos_tagger.py` (classes `POSLexicon`, `POSState`, `POSModel`).

The sentence graph is a list of nodes whose index 0 is the root sentinel.
Iterating a graph in the source (`for node in self.graph`) yields the nodes
after the root, and `len(self.graph)` counts those token nodes, while
`self.graph.nodes` is the full list including the root; both conventions are
used below (`tokens` vs `nodes`).

Score vectors and embedding vectors are modelled as lists of rationals; the
contents never matter, only identities and lengths.
-/

namespace Elit

/-- A node of the sentence graph (`elit.structure.NLPNode`).
Modelled from the spec: the structure module is not included in the sources;
per the data model a node carries an immutable token form, a mutable
predicted tag (`pos`, initially unset) and a mutable per-tag score vector
(`pos_scores`). `set_pos(v)` in the source sets `pos` to `v` and returns the
previous value (this is how the gold snapshot is captured). -/
structure NLPNode where
  form : String
  pos : Option String
  pos_scores : List ℚ
  deriving DecidableEq, Repr

/-- An embedding provider (`elit.component.template.lexicon.NLPEmbedding`).
Modelled from the spec: the lexicon template module is not included in the
sources; a provider declares a fixed output width at construction and maps a
token to a vector, substituting its own zero fallback when the node is null
or the token is missing from the backing store. -/
structure NLPEmbedding where
  dim : Nat
  table : List (String × List ℚ)
  deriving DecidableEq, Repr

/-- Provider lookup: vector for the node's form, or the provider's zero
fallback when the node is absent or the form is not in the table. -/
def NLPEmbedding.get (e : NLPEmbedding) : Option NLPNode → List ℚ
  | some n => ((e.table.lookup n.form).getD (List.replicate e.dim 0))
  | none => List.replicate e.dim 0

/-- A provider is well formed when every stored vector has its declared
width. -/
def NLPEmbedding.WF (e : NLPEmbedding) : Prop :=
  ∀ kv ∈ e.table, kv.2.length = e.dim

/-- Embeds `POSLexicon.__init__`: up to three embedding providers plus the shared
zero vector of width `output_size` (the number of tag classes). -/
structure POSLexicon where
  w2v : Option NLPEmbedding
  f2v : Option NLPEmbedding
  a2v : Option NLPEmbedding
  output_size : Nat
  deriving DecidableEq, Repr

/-- The shared zero vector: `self.pos_zeros = np.zeros((output_size,))`. -/
def POSLexicon.pos_zeros (lex : POSLexicon) : List ℚ :=
  List.replicate lex.output_size 0

/-- Embeds `POSState`: the sentence graph's node list (root sentinel at index 0),
the lexicon, the optional gold snapshot, the cursor and the reset counter
(the counter lives on the `NLPState` base class; modelled from the spec as
starting at 0 and incremented by `reset`). -/
structure POSState where
  nodes : List NLPNode
  lex : POSLexicon
  golds : Option (List (Option String))
  idx_curr : Nat
  reset_count : Nat
  deriving DecidableEq, Repr

/-- The token nodes, i.e. what `for node in self.graph` iterates over:
every node after the root sentinel. -/
def POSState.tokens (s : POSState) : List NLPNode :=
  s.nodes.drop 1

/-- Embeds the `POSState.__init__` effect on one token node: when `save_gold` the list
comprehension `node.set_pos(None)` clears the label, then
`node.pos_scores = lexicon.pos_zeros` resets the score vector. -/
def initNode (lex : POSLexicon) (save_gold : Bool) (n : NLPNode) : NLPNode :=
  { n with pos := if save_gold then none else n.pos, pos_scores := lex.pos_zeros }

/-- Embeds `POSState.__init__(graph, lexicon, save_gold)`: captures the gold labels
(the values `set_pos(None)` returns) when `save_gold`, clears the token
labels in that case, resets every token's score vector, and sets the cursor
to 1.  The root sentinel is not touched (graph iteration skips it). -/
def POSState.create (graph : List NLPNode) (lex : POSLexicon) (save_gold : Bool) :
    POSState :=
  let nodes := match graph with
    | [] => []
    | root :: toks => root :: toks.map (initNode lex save_gold)
  { nodes := nodes
    lex := lex
    golds := if save_gold then some ((graph.drop 1).map (fun n => n.pos)) else none
    idx_curr := 1
    reset_count := 0 }

/-- Embeds the `POSState.reset` effect on one token node: `node.pos = None`,
`node.pos_scores = self.lex.pos_zeros`. -/
def resetNode (lex : POSLexicon) (n : NLPNode) : NLPNode :=
  { n with pos := none, pos_scores := lex.pos_zeros }

/-- Embeds `POSState.reset`: clears every token node's label and score vector,
rewinds the cursor to 1 and increments the reset counter. -/
def POSState.reset (s : POSState) : POSState :=
  let nodes := match s.nodes with
    | [] => []
    | root :: toks => root :: toks.map (resetNode s.lex)
  { s with
    nodes := nodes
    idx_curr := 1
    reset_count := s.reset_count + 1 }

/-- The gold label the snapshot reports when the cursor sits at position
`p`: `self.golds[p - 1] if self.golds else None`.  Out-of-range access is
rendered as `none` (it is never exercised by in-range positions). -/
def POSState.goldAt (s : POSState) (p : Nat) : Option String :=
  match s.golds with
  | some gs => gs.getD (p - 1) none
  | none => none

/-- Embeds `POSState.gold`: the gold label for the node at `idx_curr - 1`. -/
def POSState.gold (s : POSState) : Option String :=
  s.goldAt s.idx_curr

/-- Embeds `POSState.eval(stats)`: with no gold snapshot returns 0 and leaves the
accumulator alone; otherwise adds the token count to `stats[0]`, adds to
`stats[1]` one per token whose current label equals its gold label, and
returns `stats[1] / stats[0]`.  The accumulator is a pair (total, correct). -/
def POSState.eval (s : POSState) (stats : ℚ × ℚ) : (ℚ × ℚ) × ℚ :=
  match s.golds with
  | none => (stats, 0)
  | some gs =>
      let total := stats.1 + s.tokens.length
      let correct := stats.2 +
        ((s.tokens.zip gs).countP (fun p => p.1.pos = p.2) : ℚ)
      ((total, correct), correct / total)

/-- Embeds `POSState.process(label, scores)`: writes `scores` (when given) and the
label to the node at the cursor, then advances the cursor.  Indexing
`self.graph.nodes[self.idx_curr]` past the end raises in Python; that error
branch is rendered as `none`. -/
def POSState.process (s : POSState) (label : String) (scores : Option (List ℚ)) :
    Option POSState :=
  match s.nodes[s.idx_curr]? with
  | none => none
  | some node =>
      let node' := { node with
        pos := some label
        pos_scores := scores.getD node.pos_scores }
      some { s with
        nodes := s.nodes.set s.idx_curr node'
        idx_curr := s.idx_curr + 1 }

/-- Embeds `POSState.terminate`: `idx_curr >= len(self.graph.nodes)`. -/
def POSState.terminate (s : POSState) : Bool :=
  s.nodes.length ≤ s.idx_curr

/-- A sequence of `process` calls, each a label with an optional score
vector; fails as soon as one call would index out of range. -/
def POSState.processMany (s : POSState) :
    List (String × Option (List ℚ)) → Option POSState
  | [] => some s
  | a :: rest =>
      match s.process a.1 a.2 with
      | none => none
      | some s' => s'.processMany rest

/-- The feature group an optional provider contributes: one vector when the
provider is configured, nothing otherwise (`if self.lex.w2v: fs.append(...)`). -/
def optFeature (e? : Option NLPEmbedding) (node : Option NLPNode) : List (List ℚ) :=
  match e? with
  | some e => [e.get node]
  | none => []

/-- Embeds `POSState.features(node)`: the node's current score vector (or the shared
zero vector when the node is null), followed by the vector of each configured
provider in declared order w2v, f2v, a2v. -/
def POSState.features (s : POSState) (node : Option NLPNode) : List (List ℚ) :=
  let head := match node with
    | some n => n.pos_scores
    | none => s.lex.pos_zeros
  head :: (optFeature s.lex.w2v node ++ optFeature s.lex.f2v node ++
    optFeature s.lex.a2v node)

/-- Modelled from the spec: `NLPState.get_node(index, window)` lives in the state
template module is not included in the sources; per §4.2 it resolves the node
at position `index + window`, or null when that position is out of the
sentence bounds (strict bounds check, no wrap-around). -/
def POSState.get_node (s : POSState) (index : Nat) (window : Int) : Option NLPNode :=
  let i : Int := (index : Int) + window
  if 0 ≤ i then s.nodes[i.toNat]? else none

/-- Embeds `POSModel.x(state)`: for every window offset in `feature_context`, gather
the feature vectors of the node at `idx_curr + offset` and concatenate
everything into one flat vector. -/
def POSModel.x (feature_context : List Int) (s : POSState) : List ℚ :=
  ((feature_context.map fun w => s.features (s.get_node s.idx_curr w)).flatten).flatten

/-- The declared width of an optional provider, 0 when absent. -/
def optDim (e? : Option NLPEmbedding) : Nat :=
  (e?.map NLPEmbedding.dim).getD 0

/-- The summed width of the configured providers. -/
def POSLexicon.widthSum (lex : POSLexicon) : Nat :=
  optDim lex.w2v + optDim lex.f2v + optDim lex.a2v

/-- A lexicon is well formed when each configured provider is. -/
def POSLexicon.WF (lex : POSLexicon) : Prop :=
  (∀ e, lex.w2v = some e → e.WF) ∧ (∀ e, lex.f2v = some e → e.WF) ∧
    (∀ e, lex.a2v = some e → e.WF)

theorem lookup_getD_length (d : Nat) (table : List (String × List ℚ))
    (hWF : ∀ kv ∈ table, kv.2.length = d) (k : String) :
    ((table.lookup k).getD (List.replicate d 0)).length = d := by
  induction table with
  | nil => simp
  | cons a l ih =>
      simp only [List.lookup]
      by_cases hk : (k == a.1)
      · simp [hk, hWF a (List.mem_cons_self a l)]
      · simp only [hk, Bool.false_eq_true, if_false]
        exact ih fun kv h => hWF kv (List.mem_cons_of_mem a h)

theorem NLPEmbedding.get_length (e : NLPEmbedding) (hWF : e.WF)
    (node : Option NLPNode) : (e.get node).length = e.dim := by
  cases node with
  | none => simp [NLPEmbedding.get]
  | some n => exact lookup_getD_length e.dim e.table hWF n.form

theorem optFeature_flatten_length (e? : Option NLPEmbedding)
    (hWF : ∀ e, e? = some e → e.WF) (node : Option NLPNode) :
    ((optFeature e? node).flatten).length = optDim e? := by
  cases e? with
  | none => simp [optFeature, optDim]
  | some e =>
      simp [optFeature, optDim, NLPEmbedding.get_length e (hWF e rfl) node]

theorem features_flatten_length (s : POSState) (hlex : s.lex.WF)
    (hscores : ∀ n ∈ s.nodes, n.pos_scores.length = s.lex.output_size)
    (node : Option NLPNode) (hnode : ∀ n, node = some n → n ∈ s.nodes) :
    ((s.features node).flatten).length = s.lex.output_size + s.lex.widthSum := by
  obtain ⟨hw, hf, ha⟩ := hlex
  have hhead : (match node with
      | some n => n.pos_scores
      | none => s.lex.pos_zeros).length = s.lex.output_size := by
    cases node with
    | none => simp [POSLexicon.pos_zeros]
    | some n => exact hscores n (hnode n rfl)
  simp only [POSState.features, List.flatten_cons, List.flatten_append,
    List.length_append, hhead, optFeature_flatten_length s.lex.w2v hw node,
    optFeature_flatten_length s.lex.f2v hf node,
    optFeature_flatten_length s.lex.a2v ha node, POSLexicon.widthSum]

theorem get_node_mem (s : POSState) (index : Nat) (window : Int) (n : NLPNode)
    (h : s.get_node index window = some n) : n ∈ s.nodes := by
  unfold POSState.get_node at h
  by_cases h0 : (0 : Int) ≤ (index : Int) + window
  · rw [if_pos h0] at h
    exact List.getElem?_mem h
  · rw [if_neg h0] at h
    exact absurd h (by simp)

theorem mem_optFeature_none (e? : Option NLPEmbedding) (v : List ℚ)
    (hv : v ∈ optFeature e? none) : ∃ k, v = List.replicate k (0 : ℚ) := by
  cases e? with
  | none => simp [optFeature] at hv
  | some e =>
      simp [optFeature, NLPEmbedding.get] at hv
      exact ⟨e.dim, hv⟩

theorem features_none_zero (s : POSState) (v : List ℚ)
    (hv : v ∈ s.features none) : ∃ k, v = List.replicate k (0 : ℚ) := by
  simp only [POSState.features, List.mem_cons, List.mem_append] at hv
  rcases hv with rfl | (h | h) | h
  · exact ⟨s.lex.output_size, rfl⟩
  · exact mem_optFeature_none s.lex.w2v v h
  · exact mem_optFeature_none s.lex.f2v v h
  · exact mem_optFeature_none s.lex.a2v v h

/-- C2: at every cursor position and offset window, the assembled feature
vector of `POSModel.x` has fixed length `offsets × (scoreWidth + Σ provider
widths)`, and every component substituted for an out-of-bounds node is a zero
vector of some width (never shortened, never an error). -/
theorem claim_C2_feature_vector_length (fc : List Int) (s : POSState)
    (hlex : s.lex.WF)
    (hscores : ∀ n ∈ s.nodes, n.pos_scores.length = s.lex.output_size) :
    (POSModel.x fc s).length = fc.length * (s.lex.output_size + s.lex.widthSum) ∧
    (∀ v ∈ s.features none, ∃ k, v = List.replicate k (0 : ℚ)) := by
  refine ⟨?_, fun v hv => features_none_zero s v hv⟩
  induction fc with
  | nil => simp [POSModel.x]
  | cons w fc ih =>
      have hstep : ((s.features (s.get_node s.idx_curr w)).flatten).length =
          s.lex.output_size + s.lex.widthSum :=
        features_flatten_length s hlex hscores _
          (fun n hn => get_node_mem s s.idx_curr w n hn)
      simp only [POSModel.x, List.map_cons, List.flatten_cons, List.flatten_append,
        List.length_append] at ih ⊢
      rw [hstep, ih, List.length_cons]
      ring

theorem process_none_iff (s : POSState) (l : String) (sc : Option (List ℚ)) :
    s.process l sc = none ↔ s.nodes.length ≤ s.idx_curr := by
  rcases h : s.nodes[s.idx_curr]? with _ | node
  · simp [POSState.process, h, List.getElem?_eq_none_iff.mp h]
  · have hlt : s.idx_curr < s.nodes.length := by
      by_contra hh
      rw [List.getElem?_eq_none_iff.mpr (le_of_not_lt hh)] at h
      cases h
    simp [POSState.process, h]
    omega

theorem process_some_spec (s s' : POSState) (l : String) (sc : Option (List ℚ))
    (h : s.process l sc = some s') :
    s'.idx_curr = s.idx_curr + 1 ∧ s'.nodes.length = s.nodes.length ∧
      s'.golds = s.golds ∧ s'.lex = s.lex ∧ s'.reset_count = s.reset_count := by
  rcases hg : s.nodes[s.idx_curr]? with _ | node
  · simp [POSState.process, hg] at h
  · simp only [POSState.process, hg, Option.some.injEq] at h
    subst h
    simp [List.length_set]

theorem processMany_some_spec (acts : List (String × Option (List ℚ))) :
    ∀ s s' : POSState, s.processMany acts = some s' →
      s'.idx_curr = s.idx_curr + acts.length ∧ s'.nodes.length = s.nodes.length ∧
        s'.golds = s.golds ∧ s'.lex = s.lex ∧ s'.reset_count = s.reset_count := by
  induction acts with
  | nil =>
      intro s s' h
      simp only [POSState.processMany, Option.some.injEq] at h
      subst h
      simp
  | cons a rest ih =>
      intro s s' h
      simp only [POSState.processMany] at h
      rcases hp : s.process a.1 a.2 with _ | s1
      · rw [hp] at h; cases h
      · rw [hp] at h
        obtain ⟨h1, h2, h3, h4, h5⟩ := process_some_spec s s1 a.1 a.2 hp
        obtain ⟨g1, g2, g3, g4, g5⟩ := ih s1 s' h
        exact ⟨by rw [g1, h1, List.length_cons]; omega, by rw [g2, h2],
          by rw [g3, h3], by rw [g4, h4], by rw [g5, h5]⟩

theorem processMany_isSome (acts : List (String × Option (List ℚ))) :
    ∀ s : POSState, s.idx_curr + acts.length ≤ s.nodes.length →
      ∃ s', s.processMany acts = some s' := by
  induction acts with
  | nil => exact fun s _ => ⟨s, rfl⟩
  | cons a rest ih =>
      intro s hle
      rw [List.length_cons] at hle
      rcases hs : s.process a.1 a.2 with _ | s1
      · rw [process_none_iff] at hs; omega
      · obtain ⟨h1, h2, _⟩ := process_some_spec s s1 a.1 a.2 hs
        obtain ⟨s', hs'⟩ := ih s1 (by omega)
        exact ⟨s', by simp [POSState.processMany, hs, hs']⟩

theorem create_nodes_length (graph : List NLPNode) (lex : POSLexicon) (sg : Bool) :
    (POSState.create graph lex sg).nodes.length = graph.length := by
  cases graph <;> simp [POSState.create]

theorem create_idx (graph : List NLPNode) (lex : POSLexicon) (sg : Bool) :
    (POSState.create graph lex sg).idx_curr = 1 := by
  cases graph <;> rfl

theorem terminate_iff (t : POSState) :
    t.terminate = true ↔ t.nodes.length ≤ t.idx_curr := by
  simp [POSState.terminate]

/-- C1: a fresh state on a graph of `N ≥ 2` nodes (root included) starts at
`idx_curr = 1` with `terminate` false; any `N - 1` calls to `process` all
succeed and leave `terminate` true, while after every strictly earlier call
`terminate` is still false; and `terminate` holds exactly when
`idx_curr ≥ N`. -/
theorem claim_C1_termination (graph : List NLPNode) (lex : POSLexicon) (sg : Bool)
    (acts : List (String × Option (List ℚ)))
    (hN : 2 ≤ graph.length) (hacts : acts.length = graph.length - 1) :
    (POSState.create graph lex sg).idx_curr = 1 ∧
    (POSState.create graph lex sg).terminate = false ∧
    (∃ s', (POSState.create graph lex sg).processMany acts = some s' ∧
      s'.terminate = true) ∧
    (∀ k, k < acts.length → ∃ sk,
      (POSState.create graph lex sg).processMany (acts.take k) = some sk ∧
        sk.terminate = false) ∧
    (∀ t : POSState, t.terminate = true ↔ t.nodes.length ≤ t.idx_curr) := by
  have hidx := create_idx graph lex sg
  have hlen := create_nodes_length graph lex sg
  refine ⟨hidx, ?_, ?_, ?_, terminate_iff⟩
  · simp only [POSState.terminate, hidx, hlen]
    simp only [decide_eq_false_iff_not]
    omega
  · obtain ⟨s', hs'⟩ := processMany_isSome acts (POSState.create graph lex sg)
      (by omega)
    obtain ⟨h1, h2, _⟩ := processMany_some_spec acts _ s' hs'
    refine ⟨s', hs', ?_⟩
    rw [terminate_iff]
    omega
  · intro k hk
    obtain ⟨sk, hsk⟩ := processMany_isSome (acts.take k) (POSState.create graph lex sg)
      (by rw [List.length_take]; omega)
    obtain ⟨h1, h2, _⟩ := processMany_some_spec (acts.take k) _ sk hsk
    refine ⟨sk, hsk, ?_⟩
    simp only [POSState.terminate, decide_eq_false_iff_not]
    rw [h1, h2, List.length_take, hidx, hlen]
    push_neg
    have : min k acts.length = k := min_eq_left (le_of_lt hk)
    omega


/-- Concrete forms and tags used by the witnesses. -/
def fROOT : String := "ROOT"

/-- Token form used by the witnesses. -/
def fThe : String := "the"

/-- Token form used by the witnesses. -/
def fDog : String := "dog"

/-- A tag label used by the witnesses. -/
def tDT : String := "DT"

/-- A tag label used by the witnesses. -/
def tNN : String := "NN"

/-- A tag label used by the witnesses. -/
def tX : String := "X"

/-- A lexicon with one configured provider, for concrete evaluations. -/
def sampleLex : POSLexicon :=
  { w2v := some { dim := 2, table := [("the", [1, 2])] }
    f2v := none
    a2v := none
    output_size := 3 }

/-- A node with a given form, no label and a zero score vector. -/
def sampleNode (f : String) : NLPNode :=
  { form := f, pos := none, pos_scores := [0, 0, 0] }

/-- Root sentinel plus two tokens. -/
def sampleGraph : List NLPNode :=
  [sampleNode fROOT, sampleNode fThe, sampleNode fDog]

/-- Two transitions, one without and one with a score vector. -/
def sampleActs : List (String × Option (List ℚ)) :=
  [("DT", none), ("NN", some [1, 0, 0])]

theorem sampleLex_WF : sampleLex.WF := by
  refine ⟨fun e he => ?_, fun e he => ?_, fun e he => ?_⟩ <;>
    simp only [sampleLex] at he
  · cases he
    intro kv hkv
    simp only [List.mem_singleton] at hkv
    subst hkv
    rfl
  · cases he
  · cases he

/-- Witness for C1 at the concrete three-node sentence. -/
theorem claim_C1_witness :
    (2 ≤ sampleGraph.length ∧ sampleActs.length = sampleGraph.length - 1) ∧
    ((POSState.create sampleGraph sampleLex false).idx_curr = 1 ∧
     (POSState.create sampleGraph sampleLex false).terminate = false ∧
     (∃ s', (POSState.create sampleGraph sampleLex false).processMany sampleActs =
        some s' ∧ s'.terminate = true) ∧
     (∀ k, k < sampleActs.length → ∃ sk,
       (POSState.create sampleGraph sampleLex false).processMany (sampleActs.take k) =
         some sk ∧ sk.terminate = false) ∧
     (∀ t : POSState, t.terminate = true ↔ t.nodes.length ≤ t.idx_curr)) :=
  ⟨⟨by decide, by decide⟩,
    claim_C1_termination sampleGraph sampleLex false sampleActs (by decide) (by decide)⟩

/-- The sample state, built with gold capture enabled. -/
def sampleState : POSState := POSState.create sampleGraph sampleLex true

/-- Witness for C2 at the concrete state: the feature vector is
5 offsets × (3 score slots + 2 embedding slots) long. -/
theorem claim_C2_witness :
    (sampleState.lex.WF ∧
      (∀ n ∈ sampleState.nodes, n.pos_scores.length = sampleState.lex.output_size)) ∧
    ((POSModel.x [-2, -1, 0, 1, 2] sampleState).length =
      5 * (sampleState.lex.output_size + sampleState.lex.widthSum) ∧
     (∀ v ∈ sampleState.features none, ∃ k, v = List.replicate k (0 : ℚ))) :=
  ⟨⟨sampleLex_WF, by decide⟩,
    claim_C2_feature_vector_length [-2, -1, 0, 1, 2] sampleState sampleLex_WF (by decide)⟩

/-- C3: with no gold snapshot `eval` returns 0 and keeps the accumulator;
with a snapshot it adds the token count to slot 0, adds one to slot 1 per
token whose current label equals its gold label, and returns the running
ratio slot1 / slot0 — so on a fresh accumulator an all-match state yields 1
and a no-match state yields 0. -/
theorem claim_C3_eval (s : POSState) (stats : ℚ × ℚ) :
    (s.golds = none → s.eval stats = (stats, 0)) ∧
    (∀ gs, s.golds = some gs →
      (s.eval stats).1.1 = stats.1 + s.tokens.length ∧
      (s.eval stats).1.2 = stats.2 +
        ((s.tokens.zip gs).countP (fun p => p.1.pos = p.2) : ℚ) ∧
      (s.eval stats).2 = (s.eval stats).1.2 / (s.eval stats).1.1) ∧
    (∀ gs, s.golds = some gs → stats = (0, 0) → s.tokens ≠ [] →
      gs.length = s.tokens.length →
      ((∀ p ∈ s.tokens.zip gs, p.1.pos = p.2) → (s.eval stats).2 = 1) ∧
      ((∀ p ∈ s.tokens.zip gs, p.1.pos ≠ p.2) → (s.eval stats).2 = 0)) := by
  refine ⟨fun h => by simp [POSState.eval, h], fun gs hg => ?_, fun gs hg hst hne hlen => ?_⟩
  · simp [POSState.eval, hg]
  · have hzlen : (s.tokens.zip gs).length = s.tokens.length := by
      rw [List.length_zip, hlen, min_self]
    have htok : 0 < s.tokens.length := List.length_pos.mpr hne
    subst hst
    constructor
    · intro hall
      have hcnt : (s.tokens.zip gs).countP (fun p => p.1.pos = p.2) =
          (s.tokens.zip gs).length := by
        rw [List.countP_eq_length]
        intro p hp
        exact decide_eq_true (hall p hp)
      have hne0 : ((s.tokens.length : ℚ)) ≠ 0 := by
        exact_mod_cast Nat.pos_iff_ne_zero.mp htok
      simp [POSState.eval, hg, hcnt, hzlen, div_self hne0]
    · intro hnone
      have hcnt : (s.tokens.zip gs).countP (fun p => p.1.pos = p.2) = 0 := by
        rw [List.countP_eq_zero]
        intro p hp
        simpa using hnone p hp
      simp [POSState.eval, hg, hcnt]

/-- A token node with a label already applied. -/
def taggedNode (f t : String) : NLPNode :=
  { form := f, pos := some t, pos_scores := [0, 0, 0] }

/-- A fully tagged state whose predictions match its gold snapshot. -/
def evalState : POSState :=
  { nodes := [sampleNode fROOT, taggedNode fThe tDT, taggedNode fDog tNN]
    lex := sampleLex
    golds := some [some tDT, some tNN]
    idx_curr := 3
    reset_count := 0 }

/-- The same state without a gold snapshot. -/
def noGoldState : POSState := { evalState with golds := none }

/-- Witness for C3: the all-match state accumulates ratio 1 from a fresh
accumulator; without gold the accumulator is untouched and 0 is returned. -/
theorem claim_C3_witness :
    (evalState.golds = some [some tDT, some tNN] ∧ evalState.tokens ≠ [] ∧
      ([some tDT, some tNN] : List (Option String)).length = evalState.tokens.length ∧
      (∀ p ∈ evalState.tokens.zip [some tDT, some tNN], p.1.pos = p.2) ∧
      (evalState.eval (0, 0)).2 = 1) ∧
    (noGoldState.golds = none ∧ noGoldState.eval (7, 5) = ((7, 5), 0)) :=
  ⟨⟨rfl, by decide, by decide, by decide,
    ((claim_C3_eval evalState (0, 0)).2.2 [some tDT, some tNN] rfl rfl (by decide)
      (by decide)).1 (by decide)⟩,
   ⟨rfl, (claim_C3_eval noGoldState (7, 5)).1 rfl⟩⟩

/-- C4 counterexample: a second consecutive `reset` does not leave the state
as the first one did, because `reset` increments the reset counter on every
call (`self.reset_count += 1`). -/
theorem claim_C4_counterexample :
    ¬ (sampleState.reset.reset = sampleState.reset) := by decide

/-- C4 amended: `reset` rewinds the cursor to 1 and clears every token
node's label and score vector regardless of prior history, and a second
consecutive `reset` changes nothing except the reset counter, which it
increments once more. -/
theorem claim_C4_reset (s : POSState) :
    s.reset.idx_curr = 1 ∧
    (∀ n ∈ s.reset.tokens, n.pos = none ∧ n.pos_scores = s.lex.pos_zeros) ∧
    s.reset.reset = { s.reset with reset_count := s.reset.reset_count + 1 } := by
  rcases hn : s.nodes with _ | ⟨root, toks⟩
  · refine ⟨rfl, ?_, ?_⟩
    · intro n hn'
      simp [POSState.reset, POSState.tokens, hn] at hn'
    · simp [POSState.reset, hn]
  · refine ⟨rfl, ?_, ?_⟩
    · intro n hn'
      simp only [POSState.reset, POSState.tokens, hn, List.drop_succ_cons,
        List.drop_zero, List.mem_map] at hn'
      obtain ⟨m, _, rfl⟩ := hn'
      exact ⟨rfl, rfl⟩
    · simp [POSState.reset, hn, List.map_map, resetNode]

/-- Witness for C4's amended statement at a concrete processed state. -/
theorem claim_C4_witness :
    evalState.reset.idx_curr = 1 ∧
    (∀ n ∈ evalState.reset.tokens, n.pos = none ∧
      n.pos_scores = evalState.lex.pos_zeros) ∧
    evalState.reset.reset =
      { evalState.reset with reset_count := evalState.reset.reset_count + 1 } :=
  claim_C4_reset evalState

/-- C5: the gold snapshot of a state built with `save_gold` captures the
labels the graph arrived with, and the label the snapshot reports for any
fixed cursor position is unchanged by any sequence of `process` calls, even
though `process` mutates `node.pos`.  (`gold` is a pure query: `goldAt`
reads the state without modifying it.) -/
theorem claim_C5_gold_immutable (graph : List NLPNode) (lex : POSLexicon)
    (acts : List (String × Option (List ℚ))) (s' : POSState)
    (h : (POSState.create graph lex true).processMany acts = some s') :
    (POSState.create graph lex true).golds =
      some ((graph.drop 1).map (fun n => n.pos)) ∧
    (∀ p, s'.goldAt p = (POSState.create graph lex true).goldAt p) := by
  have hg : (POSState.create graph lex true).golds =
      some ((graph.drop 1).map (fun n => n.pos)) := by
    cases graph <;> simp [POSState.create]
  have hpres := (processMany_some_spec acts _ s' h).2.2.1
  exact ⟨hg, fun p => by unfold POSState.goldAt; rw [hpres]⟩

/-- A graph that arrives already carrying gold labels. -/
def goldGraph : List NLPNode :=
  [sampleNode fROOT, taggedNode fThe tDT, taggedNode fDog tNN]

/-- The state reached from `goldGraph` after the two `sampleActs` calls. -/
def goldFinal : POSState :=
  { nodes := [sampleNode fROOT,
      { form := "the", pos := some tDT, pos_scores := List.replicate 3 0 },
      { form := "dog", pos := some tNN, pos_scores := [1, 0, 0] }]
    lex := sampleLex
    golds := some [some tDT, some tNN]
    idx_curr := 3
    reset_count := 0 }

/-- Witness for C5: running the two transitions over `goldGraph` relabels
the nodes yet reports the same gold labels as at construction. -/
theorem claim_C5_witness :
    ((POSState.create goldGraph sampleLex true).processMany sampleActs =
      some goldFinal) ∧
    ((POSState.create goldGraph sampleLex true).golds =
      some ((goldGraph.drop 1).map (fun n => n.pos)) ∧
     (∀ p, goldFinal.goldAt p =
       (POSState.create goldGraph sampleLex true).goldAt p)) :=
  ⟨by decide,
   claim_C5_gold_immutable goldGraph sampleLex sampleActs goldFinal (by decide)⟩

/-- C6: a successful `process l sc` advances the cursor by one, rewrites
exactly the node that sat at the old cursor — label set to `l`, score vector
set to `sc` when provided — and leaves every other node and every other
state component untouched. -/
theorem claim_C6_process_frame (s s' : POSState) (l : String) (sc : Option (List ℚ))
    (h : s.process l sc = some s') :
    s'.idx_curr = s.idx_curr + 1 ∧ s'.golds = s.golds ∧ s'.lex = s.lex ∧
    s'.reset_count = s.reset_count ∧ s'.nodes.length = s.nodes.length ∧
    (∀ j, j ≠ s.idx_curr → s'.nodes[j]? = s.nodes[j]?) ∧
    (∀ n, s.nodes[s.idx_curr]? = some n →
      s'.nodes[s.idx_curr]? =
        some { n with pos := some l, pos_scores := sc.getD n.pos_scores }) := by
  rcases hg : s.nodes[s.idx_curr]? with _ | node
  · simp [POSState.process, hg] at h
  · have hlt : s.idx_curr < s.nodes.length := by
      by_contra hh
      rw [List.getElem?_eq_none_iff.mpr (le_of_not_lt hh)] at hg
      cases hg
    simp only [POSState.process, hg, Option.some.injEq] at h
    subst h
    refine ⟨rfl, rfl, rfl, rfl, List.length_set s.nodes _ _, ?_, ?_⟩
    · intro j hj
      simp [List.getElem?_set_ne (fun hh => hj hh.symm)]
    · intro n hn
      cases Option.some.inj hn
      simp [List.getElem?_set_self, hlt]

/-- The state `process tDT [2, 3, 4]` reaches from the sample state. -/
def sampleAfterDT : POSState :=
  { nodes := [sampleNode fROOT,
      { form := "the", pos := some tDT, pos_scores := [2, 3, 4] },
      { form := "dog", pos := none, pos_scores := List.replicate 3 0 }]
    lex := sampleLex
    golds := some [none, none]
    idx_curr := 2
    reset_count := 0 }

/-- Witness for C6 at a concrete active state. -/
theorem claim_C6_witness :
    (sampleState.process tDT (some [2, 3, 4]) = some sampleAfterDT) ∧
    (sampleAfterDT.idx_curr = sampleState.idx_curr + 1 ∧
     sampleAfterDT.golds = sampleState.golds ∧
     sampleAfterDT.lex = sampleState.lex ∧
     sampleAfterDT.reset_count = sampleState.reset_count ∧
     sampleAfterDT.nodes.length = sampleState.nodes.length ∧
     (∀ j, j ≠ sampleState.idx_curr →
       sampleAfterDT.nodes[j]? = sampleState.nodes[j]?) ∧
     (∀ n, sampleState.nodes[sampleState.idx_curr]? = some n →
       sampleAfterDT.nodes[sampleState.idx_curr]? =
         some { n with
           pos := some tDT
           pos_scores := (some [2, 3, 4]).getD n.pos_scores })) :=
  ⟨by decide,
   claim_C6_process_frame sampleState sampleAfterDT tDT (some [2, 3, 4]) (by decide)⟩

/-- C7: on an active state (`idx_curr < N`) the node indexing in `process`
is in bounds and the call succeeds; on a terminated state (`idx_curr ≥ N`)
the indexing is out of range — the error rendering of Python's IndexError —
rather than a defined transition. -/
theorem claim_C7_process_safety (s : POSState) (l : String) (sc : Option (List ℚ)) :
    (s.idx_curr < s.nodes.length → (s.process l sc).isSome = true) ∧
    (s.nodes.length ≤ s.idx_curr → s.process l sc = none) := by
  constructor
  · intro h
    rcases hp : s.process l sc with _ | s1
    · rw [process_none_iff] at hp
      omega
    · rfl
  · exact fun h => (process_none_iff s l sc).mpr h

/-- A terminated state: the cursor sits past the last node. -/
def termState : POSState := { sampleState with idx_curr := 3 }

/-- Witness for C7: `process` succeeds on the active sample state and fails
on the terminated one. -/
theorem claim_C7_witness :
    (sampleState.idx_curr < sampleState.nodes.length ∧
      (sampleState.process tDT none).isSome = true) ∧
    (termState.nodes.length ≤ termState.idx_curr ∧
      termState.process tX none = none) :=
  ⟨⟨by decide, (claim_C7_process_safety sampleState tDT none).1 (by decide)⟩,
   ⟨by decide, (claim_C7_process_safety termState tX none).2 (by decide)⟩⟩

/-- C8: with gold capture enabled the constructor clears every token node's
predicted label (the `set_pos(None)` side effect of snapshotting), even when
the graph arrived labelled; with gold capture disabled the labels survive
construction unchanged. -/
theorem claim_C8_constructor_clears (graph : List NLPNode) (lex : POSLexicon) :
    (∀ n ∈ (POSState.create graph lex true).tokens, n.pos = none) ∧
    ((POSState.create graph lex false).tokens.map (fun n => n.pos) =
      (graph.drop 1).map (fun n => n.pos)) := by
  rcases graph with _ | ⟨root, toks⟩
  · exact ⟨fun n hn => by simp [POSState.create, POSState.tokens] at hn, rfl⟩
  · constructor
    · intro n hn
      simp only [POSState.create, POSState.tokens, List.drop_succ_cons,
        List.drop_zero, List.mem_map] at hn
      obtain ⟨m, _, rfl⟩ := hn
      rfl
    · simp [POSState.create, POSState.tokens, List.map_map, initNode, Function.comp]

/-- Witness for C8 at the pre-labelled `goldGraph`: gold capture wipes the
labels, no gold capture keeps `DT`/`NN`. -/
theorem claim_C8_witness :
    (∀ n ∈ (POSState.create goldGraph sampleLex true).tokens, n.pos = none) ∧
    ((POSState.create goldGraph sampleLex false).tokens.map (fun n => n.pos) =
      (goldGraph.drop 1).map (fun n => n.pos)) :=
  claim_C8_constructor_clears goldGraph sampleLex

/-- C9: `process label` without a score vector advances the cursor and
applies the label, but leaves every node's score vector — including the
current node's — exactly as it was. -/
theorem claim_C9_process_no_scores (s s' : POSState) (l : String)
    (h : s.process l none = some s') :
    s'.idx_curr = s.idx_curr + 1 ∧
    (∀ j : Nat, (s'.nodes[j]?).map NLPNode.pos_scores =
      (s.nodes[j]?).map NLPNode.pos_scores) ∧
    (s'.nodes[s.idx_curr]?).map NLPNode.pos = some (some l) := by
  rcases hg : s.nodes[s.idx_curr]? with _ | node
  · simp [POSState.process, hg] at h
  · have hlt : s.idx_curr < s.nodes.length := by
      by_contra hh
      rw [List.getElem?_eq_none_iff.mpr (le_of_not_lt hh)] at hg
      cases hg
    simp only [POSState.process, hg, Option.some.injEq] at h
    subst h
    refine ⟨rfl, ?_, ?_⟩
    · intro j
      by_cases hj : s.idx_curr = j
      · subst hj
        simp [List.getElem?_set_self, hlt, hg]
      · simp [List.getElem?_set_ne hj]
    · simp [List.getElem?_set_self, hlt]

/-- The state `process tDT` (no scores) reaches from the sample state. -/
def sampleAfterDTNoScores : POSState :=
  { nodes := [sampleNode fROOT,
      { form := "the", pos := some tDT, pos_scores := List.replicate 3 0 },
      { form := "dog", pos := none, pos_scores := List.replicate 3 0 }]
    lex := sampleLex
    golds := some [none, none]
    idx_curr := 2
    reset_count := 0 }

/-- Witness for C9: the no-scores transition from the sample state. -/
theorem claim_C9_witness :
    (sampleState.process tDT none = some sampleAfterDTNoScores) ∧
    (sampleAfterDTNoScores.idx_curr = sampleState.idx_curr + 1 ∧
     (∀ j : Nat, (sampleAfterDTNoScores.nodes[j]?).map NLPNode.pos_scores =
       (sampleState.nodes[j]?).map NLPNode.pos_scores) ∧
     (sampleAfterDTNoScores.nodes[sampleState.idx_curr]?).map NLPNode.pos =
       some (some tDT)) :=
  ⟨by decide,
   claim_C9_process_no_scores sampleState sampleAfterDTNoScores tDT (by decide)⟩

/-- C10: `reset` does not touch the gold snapshot, so the same state reports
the same gold labels across epochs. -/
theorem claim_C10_reset_keeps_gold (s : POSState) :
    s.reset.golds = s.golds ∧ ∀ p, s.reset.goldAt p = s.goldAt p :=
  ⟨rfl, fun p => by unfold POSState.goldAt; rfl⟩

end Elit
